import Mathlib

/-!
Verification development for the anb-codedev repository's
prompt-construction / response-normalization pipeline.

Strings are modelled as `List Char` (JavaScript strings are sequences of
code units; all inputs of interest here are ASCII, where code units and
code points coincide).  Each definition is a direct translation of the
JavaScript/TypeScript source named in its doc comment.
-/

/-- Character constant for the backtick, U+0060. -/
def tickChar : Char := Char.ofNat 96

/-- Character constant for the single quote, U+0027. -/
def squoteChar : Char := Char.ofNat 39

/-- Character constant for the opening curly brace, U+007B. -/
def lbraceChar : Char := Char.ofNat 123

/-- Character constant for the closing curly brace, U+007D. -/
def rbraceChar : Char := Char.ofNat 125

/-- JavaScript regex class `\w`: ASCII letters, digits and underscore. -/
def isWordChar (c : Char) : Bool :=
  (c.isAlpha || c.isDigit) || c = '_'

/-- JavaScript regex class `\s`, restricted to the ASCII whitespace
characters (space, tab, newline, carriage return, vertical tab, form
feed); the Unicode whitespace accepted by JS engines beyond ASCII is not
modelled. -/
def jsWs (c : Char) : Bool :=
  c = ' ' || c = '\t' || c = '\n' || c = '\r' || c = '\x0b' || c = '\x0c'

/-- JavaScript `String.prototype.trim`: drop whitespace from both ends. -/
def jsTrim (l : List Char) : List Char :=
  ((l.dropWhile jsWs).reverse.dropWhile jsWs).reverse

/-- Auxiliary length bound used for termination of the scanners below. -/
theorem tailLengthLe (l : List α) : l.tail.length ≤ l.length := by
  cases l <;> simp

/-- Auxiliary length bound used for termination of the scanners below. -/
theorem dropWhileLengthLe (p : α → Bool) (l : List α) :
    (l.dropWhile p).length ≤ l.length := by
  induction l with
  | nil => simp [List.dropWhile]
  | cons c rest ih =>
    rw [List.dropWhile]
    by_cases h : p c
    · simp only [h]
      exact Nat.le_trans ih (by simp)
    · simp [h]

/-- First scanning pass of the response cleanup in
`CodeExplanation.tsx`, `handleExplain` (line 159) and in the test
generator `handleGenerate` (line 222):
`.replace(/```[\w]*\n?/g, "")`.  At each position, a run of three
backticks followed by a maximal run of word characters and an optional
newline is removed; otherwise the character is kept. -/
def stripFenceLang (l : List Char) : List Char :=
  match l with
  | [] => []
  | c :: rest =>
    if c = tickChar ∧ rest.head? = some tickChar ∧ rest.tail.head? = some tickChar then
      if ((rest.tail.tail).dropWhile isWordChar).head? = some '\n' then
        stripFenceLang ((rest.tail.tail).dropWhile isWordChar).tail
      else
        stripFenceLang ((rest.tail.tail).dropWhile isWordChar)
    else c :: stripFenceLang rest
termination_by l.length
decreasing_by
  · have h1 : ((rest.tail.tail).dropWhile isWordChar).length ≤ rest.tail.tail.length :=
      dropWhileLengthLe _ _
    have h2 : rest.tail.tail.length ≤ rest.tail.length := tailLengthLe _
    have h3 : rest.tail.length ≤ rest.length := tailLengthLe _
    have h4 : ((rest.tail.tail).dropWhile isWordChar).tail.length ≤
        ((rest.tail.tail).dropWhile isWordChar).length := tailLengthLe _
    simp only [List.length_cons]
    omega
  · have h1 : ((rest.tail.tail).dropWhile isWordChar).length ≤ rest.tail.tail.length :=
      dropWhileLengthLe _ _
    have h2 : rest.tail.tail.length ≤ rest.tail.length := tailLengthLe _
    have h3 : rest.tail.length ≤ rest.length := tailLengthLe _
    simp only [List.length_cons]
    omega
  · simp only [List.length_cons]
    omega

/-- Second scanning pass: `.replace(/```/g, "")` (CodeExplanation line
160, test generator line 222).  Removes every leftmost non-overlapping
run of three backticks. -/
def stripTicks3 (l : List Char) : List Char :=
  match l with
  | [] => []
  | c :: rest =>
    if c = tickChar ∧ rest.head? = some tickChar ∧ rest.tail.head? = some tickChar then
      stripTicks3 rest.tail.tail
    else c :: stripTicks3 rest
termination_by l.length
decreasing_by
  · have h2 : rest.tail.tail.length ≤ rest.tail.length := tailLengthLe _
    have h3 : rest.tail.length ≤ rest.length := tailLengthLe _
    simp only [List.length_cons]
    omega
  · simp only [List.length_cons]
    omega

/-- Third pass of `handleExplain` only: `.replace(/[\r\n]+/g, "\n")`
(line 161).  Every maximal run of carriage returns and newlines becomes
a single newline. -/
def isNLChar (c : Char) : Bool := c = '\r' || c = '\n'

/-- See `isNLChar`; this is the scanner for `.replace(/[\r\n]+/g, "\n")`. -/
def collapseNewlines (l : List Char) : List Char :=
  match l with
  | [] => []
  | c :: rest =>
    if isNLChar c then '\n' :: collapseNewlines (rest.dropWhile isNLChar)
    else c :: collapseNewlines rest
termination_by l.length
decreasing_by
  · have h1 : (rest.dropWhile isNLChar).length ≤ rest.length := dropWhileLengthLe _ _
    simp only [List.length_cons]
    omega
  · simp only [List.length_cons]
    omega

/-- Fourth pass of `handleExplain` only:
`.replace(/(\n\s*){3,}/g, "\n\n")` (line 162).  A leftmost match of
this regex starts at a newline and, by greediness of `{3,}` and `\s*`,
extends to the end of the maximal whitespace run starting there; a match
exists exactly when that run contains at least three newlines.  Each
such run is replaced by two newlines. -/
def collapseBlankRuns (l : List Char) : List Char :=
  match l with
  | [] => []
  | c :: rest =>
    if c = '\n' then
      if 3 ≤ ((c :: rest).takeWhile jsWs).count '\n' then
        '\n' :: '\n' :: collapseBlankRuns ((c :: rest).dropWhile jsWs)
      else c :: collapseBlankRuns rest
    else c :: collapseBlankRuns rest
termination_by l.length
decreasing_by
  · have hc : c = '\n' := by assumption
    have hws : jsWs c = true := by rw [hc]; rfl
    have h1 : (c :: rest).dropWhile jsWs = rest.dropWhile jsWs := by
      simp [List.dropWhile, hws]
    have h2 : (rest.dropWhile jsWs).length ≤ rest.length := dropWhileLengthLe _ _
    rw [h1]
    simp only [List.length_cons]
    omega
  · simp only [List.length_cons]
    omega
  · simp only [List.length_cons]
    omega

/-- The full response normalization performed by `handleExplain` in
`CodeExplanation.tsx`, lines 158-163: strip fence markers with language
tags, strip remaining triple backticks, collapse newline runs, collapse
blank-line runs, and trim. -/
def normalizeExplain (l : List Char) : List Char :=
  jsTrim (collapseBlankRuns (collapseNewlines (stripTicks3 (stripFenceLang l))))

/-- The response normalization performed by the test generator's
`handleGenerate` (unnamed source, line 222):
`result.replace(/```[\w]*\n?/g, "").replace(/```/g, "").trim()`. -/
def normalizeTests (l : List Char) : List Char :=
  jsTrim (stripTicks3 (stripFenceLang l))

/-- Scanning predicate: the string contains a run of three consecutive
backticks (the condition under which the two fence-stripping passes can
still act). -/
def hasTick3 (l : List Char) : Bool :=
  match l with
  | [] => false
  | c :: rest =>
    if c = tickChar ∧ rest.head? = some tickChar ∧ rest.tail.head? = some tickChar then true
    else hasTick3 rest

/-- Number of leading backticks of a string. -/
def leadTicks : List Char → Nat
  | [] => 0
  | c :: rest => if c = tickChar then leadTicks rest + 1 else 0

theorem leadTicks_one {m : List Char} (h : m.head? = some tickChar) :
    1 ≤ leadTicks m := by
  cases m with
  | nil => simp at h
  | cons c rest =>
    simp only [List.head?_cons, Option.some.injEq] at h
    simp [leadTicks, h]

theorem leadTicks_two {m : List Char} (h1 : m.head? = some tickChar)
    (h2 : m.tail.head? = some tickChar) : 2 ≤ leadTicks m := by
  cases m with
  | nil => simp at h1
  | cons c rest =>
    simp only [List.head?_cons, Option.some.injEq] at h1
    simp only [List.tail_cons] at h2
    have h3 := leadTicks_one h2
    simp [leadTicks, h1]
    omega

theorem hasTick3_iff (l : List Char) :
    hasTick3 l = true ↔
      ∃ a b, l = a ++ tickChar :: tickChar :: tickChar :: b := by
  induction l with
  | nil => simp [hasTick3]
  | cons c rest ih =>
    rw [hasTick3]
    by_cases h : c = tickChar ∧ rest.head? = some tickChar ∧ rest.tail.head? = some tickChar
    · simp only [if_pos h, true_iff]
      obtain ⟨hc, h1, h2⟩ := h
      cases rest with
      | nil => simp at h1
      | cons d rest2 =>
        simp only [List.head?_cons, Option.some.injEq] at h1
        simp only [List.tail_cons] at h2
        cases rest2 with
        | nil => simp at h2
        | cons e rest3 =>
          simp only [List.head?_cons, Option.some.injEq] at h2
          exact ⟨[], rest3, by simp [hc, h1, h2]⟩
    · simp only [if_neg h]
      rw [ih]
      constructor
      · rintro ⟨a, b, rfl⟩
        exact ⟨c :: a, b, by simp⟩
      · rintro ⟨a, b, hab⟩
        cases a with
        | nil =>
          exfalso
          apply h
          simp only [List.nil_append, List.cons.injEq] at hab
          exact ⟨hab.1, by rw [hab.2]; rfl, by rw [hab.2]; rfl⟩
        | cons x a2 =>
          simp only [List.cons_append, List.cons.injEq] at hab
          exact ⟨a2, b, hab.2⟩

theorem hasTick3_of_sub {u m : List Char} (hu : hasTick3 u = true)
    (hi : u <:+: m) : hasTick3 m = true := by
  rw [hasTick3_iff] at hu ⊢
  obtain ⟨a, b, rfl⟩ := hu
  obtain ⟨x, y, rfl⟩ := hi
  exact ⟨x ++ a, b ++ y, by simp⟩

theorem stripTicks3_spec (l : List Char) :
    hasTick3 (stripTicks3 l) = false ∧
    leadTicks (stripTicks3 l) ≤ 2 ∧
    leadTicks (stripTicks3 l) ≤ leadTicks l := by
  induction l using stripTicks3.induct with
  | case1 => simp [stripTicks3, hasTick3, leadTicks]
  | case2 c rest h ih =>
    rw [stripTicks3, if_pos h]
    obtain ⟨hc, h1, h2⟩ := h
    refine ⟨ih.1, ih.2.1, ?_⟩
    cases rest with
    | nil => simp at h1
    | cons d rest2 =>
      simp only [List.head?_cons, Option.some.injEq] at h1
      simp only [List.tail_cons] at h2
      have h3 := leadTicks_one h2
      have h4 := ih.2.1
      simp only [List.tail_cons] at h4 ⊢
      simp [leadTicks, hc, h1]
      omega
  | case3 c rest h ih =>
    rw [stripTicks3, if_neg h]
    by_cases hc : c = tickChar
    · have hrest : ¬ (rest.head? = some tickChar ∧ rest.tail.head? = some tickChar) := by
        intro hr; exact h ⟨hc, hr.1, hr.2⟩
      have hlead : leadTicks (stripTicks3 rest) ≤ 1 := by
        by_cases h1 : rest.head? = some tickChar
        · have h2 : rest.tail.head? ≠ some tickChar := fun h2 => hrest ⟨h1, h2⟩
          cases rest with
          | nil => simp at h1
          | cons d rest2 =>
            simp only [List.head?_cons, Option.some.injEq] at h1
            simp only [List.tail_cons] at h2
            have : leadTicks rest2 = 0 := by
              cases rest2 with
              | nil => simp [leadTicks]
              | cons e rest3 =>
                simp only [List.head?_cons] at h2
                have he : e ≠ tickChar := fun he => h2 (by rw [he])
                simp [leadTicks, he]
            have h4 := ih.2.2
            simp [leadTicks, h1, this] at h4 ⊢
            omega
        · have : leadTicks rest = 0 := by
            cases rest with
            | nil => simp [leadTicks]
            | cons d rest2 =>
              simp only [List.head?_cons] at h1
              have hd : d ≠ tickChar := fun hd => h1 (by rw [hd])
              simp [leadTicks, hd]
          have h4 := ih.2.2
          omega
      refine ⟨?_, ?_, ?_⟩
      · rw [hasTick3]
        have hcond : ¬ (c = tickChar ∧ (stripTicks3 rest).head? = some tickChar ∧
            (stripTicks3 rest).tail.head? = some tickChar) := by
          rintro ⟨-, hh1, hh2⟩
          have := leadTicks_two hh1 hh2
          omega
        rw [if_neg hcond]
        exact ih.1
      · simp [leadTicks, hc]; omega
      · have h4 := ih.2.2
        simp [leadTicks, hc]; omega
    · refine ⟨?_, ?_, ?_⟩
      · rw [hasTick3]
        have hcond : ¬ (c = tickChar ∧ (stripTicks3 rest).head? = some tickChar ∧
            (stripTicks3 rest).tail.head? = some tickChar) := fun hh => hc hh.1
        rw [if_neg hcond]
        exact ih.1
      · simp [leadTicks, hc]
      · simp [leadTicks, hc]

theorem stripTicks3_of_noTick3 {m : List Char} (h : hasTick3 m = false) :
    stripTicks3 m = m := by
  induction m with
  | nil => simp [stripTicks3]
  | cons c rest ih =>
    rw [hasTick3] at h
    by_cases hcond : c = tickChar ∧ rest.head? = some tickChar ∧ rest.tail.head? = some tickChar
    · rw [if_pos hcond] at h; exact absurd h (by simp)
    · rw [if_neg hcond] at h
      rw [stripTicks3, if_neg hcond, ih h]

theorem stripFenceLang_of_noTick3 {m : List Char} (h : hasTick3 m = false) :
    stripFenceLang m = m := by
  induction m with
  | nil => simp [stripFenceLang]
  | cons c rest ih =>
    rw [hasTick3] at h
    by_cases hcond : c = tickChar ∧ rest.head? = some tickChar ∧ rest.tail.head? = some tickChar
    · rw [if_pos hcond] at h; exact absurd h (by simp)
    · rw [if_neg hcond] at h
      rw [stripFenceLang, if_neg hcond, ih h]

theorem headDropWhileNot {p : α → Bool} {l : List α} {c : α}
    (h : (l.dropWhile p).head? = some c) : p c = false := by
  have hm := List.head?_dropWhile_not p l
  rw [h] at hm
  exact hm

theorem dropWhile_head_fails {p : α → Bool} {l : List α}
    (h : ∀ c, l.head? = some c → p c = false) : l.dropWhile p = l := by
  cases l with
  | nil => rfl
  | cons c rest =>
    rw [List.dropWhile]
    rw [h c rfl]

theorem dropWhile_dropWhile (p : α → Bool) (l : List α) :
    (l.dropWhile p).dropWhile p = l.dropWhile p := by
  apply dropWhile_head_fails
  intro c hc
  exact headDropWhileNot hc

theorem getLast?_of_suffix {s m : List α} (h : s <:+ m) (hne : s ≠ []) :
    s.getLast? = m.getLast? := by
  obtain ⟨a, rfl⟩ := h
  rw [List.getLast?_append]
  cases hsl : s.getLast? with
  | none =>
    exfalso
    cases s with
    | nil => exact hne rfl
    | cons x t => rw [List.getLast?_eq_getLast] at hsl <;> simp at hsl
  | some v => rfl

theorem jsTrim_sub (l : List Char) : jsTrim l <:+: l := by
  have h1 : l.dropWhile jsWs <:+ l := List.dropWhile_suffix jsWs
  have h2 : (l.dropWhile jsWs).reverse.dropWhile jsWs <:+ (l.dropWhile jsWs).reverse :=
    List.dropWhile_suffix jsWs
  have h3 : jsTrim l <+: l.dropWhile jsWs := by
    rw [jsTrim]
    have h4 := List.reverse_prefix.mpr h2
    rwa [List.reverse_reverse] at h4
  exact (h3.isInfix).trans h1.isInfix

theorem jsTrim_getLast_not_ws {l : List Char} {c : Char}
    (h : (jsTrim l).getLast? = some c) : jsWs c = false := by
  rw [jsTrim, List.getLast?_reverse] at h
  exact headDropWhileNot h

theorem jsTrim_head_not_ws {l : List Char} {c : Char}
    (h : (jsTrim l).head? = some c) : jsWs c = false := by
  rw [jsTrim, List.head?_reverse] at h
  have hD : (l.dropWhile jsWs).reverse.dropWhile jsWs <:+ (l.dropWhile jsWs).reverse :=
    List.dropWhile_suffix jsWs
  have hne : (l.dropWhile jsWs).reverse.dropWhile jsWs ≠ [] := by
    intro hnil; rw [hnil] at h; simp at h
  rw [getLast?_of_suffix hD hne, List.getLast?_reverse] at h
  exact headDropWhileNot h

theorem jsTrim_idem (l : List Char) : jsTrim (jsTrim l) = jsTrim l := by
  have hfront : (jsTrim l).dropWhile jsWs = jsTrim l := by
    apply dropWhile_head_fails
    intro c hc
    exact jsTrim_head_not_ws hc
  rw [jsTrim, hfront]
  have hback : (jsTrim l).reverse.dropWhile jsWs = (jsTrim l).reverse := by
    apply dropWhile_head_fails
    intro c hc
    rw [List.head?_reverse] at hc
    exact jsTrim_getLast_not_ws hc
  rw [hback, List.reverse_reverse]

/-- Idempotence of the test generator's normalization.  The key fact is
that `stripTicks3` leaves no run of three backticks, so a second pass of
both fence strippers is the identity, and trimming is idempotent. -/
theorem normalizeTests_idem (l : List Char) :
    normalizeTests (normalizeTests l) = normalizeTests l := by
  have hy : hasTick3 (stripTicks3 (stripFenceLang l)) = false :=
    (stripTicks3_spec (stripFenceLang l)).1
  have hz : hasTick3 (jsTrim (stripTicks3 (stripFenceLang l))) = false := by
    cases hzt : hasTick3 (jsTrim (stripTicks3 (stripFenceLang l))) with
    | false => rfl
    | true =>
      exact absurd (hasTick3_of_sub hzt (jsTrim_sub _)) (by rw [hy]; simp)
  show jsTrim (stripTicks3 (stripFenceLang (jsTrim (stripTicks3 (stripFenceLang l))))) =
    jsTrim (stripTicks3 (stripFenceLang l))
  rw [stripFenceLang_of_noTick3 hz, stripTicks3_of_noTick3 hz]
  exact jsTrim_idem _

/-!
A small backtracking regular-expression engine.  The JavaScript sources
use many `RegExp` literals; each literal is transcribed below into an
`Rx` syntax tree, and `mrx` runs the standard backtracking search with
JavaScript semantics: alternation prefers the left branch, `star`/`opt`
are greedy, `starL` is lazy, and a quantified subexpression must consume
input on every iteration (JS quantifiers stop on empty submatches).
The previous character is threaded through the match so that the
multiline `^` anchor, the string-start `^` anchor, and `\b` word
boundaries can be tested.  `fuel` bounds the recursion depth; every
concrete evaluation in this file uses a fuel that is far larger than the
number of engine steps the search needs on that input.
-/

/-- Regular-expression syntax tree. -/
inductive Rx where
  | fail
  | eps
  | ch (p : Char → Bool)
  | seq (a b : Rx)
  | alt (a b : Rx)
  | opt (a : Rx)
  | star (a : Rx)
  | starL (a : Rx)
  | bos
  | bol
  | eol
  | wb

/-- Wordness of the optional previous character (used by `\b`). -/
def wordOpt : Option Char → Bool
  | some c => isWordChar c
  | none => false

/-- Wordness of the next character (used by `\b`). -/
def wordHead : List Char → Bool
  | c :: _ => isWordChar c
  | [] => false

/-- Backtracking matcher in continuation-passing style.  `prev` is the
character just before the current position (`none` at the start of the
input); the continuation receives the updated `prev` and the remaining
input.  The first success in backtracking order is returned, matching
the JavaScript engine's leftmost-biased, greedy-by-default search. -/
def mrx : Nat → Rx → Option Char → List Char →
    (Option Char → List Char → Option (List Char)) → Option (List Char)
  | 0, _, _, _, _ => none
  | fuel + 1, r, prev, s, k =>
    match r with
    | .fail => none
    | .eps => k prev s
    | .ch p =>
      match s with
      | [] => none
      | c :: t => if p c then k (some c) t else none
    | .seq a b => mrx fuel a prev s (fun p2 t => mrx fuel b p2 t k)
    | .alt a b => (mrx fuel a prev s k).orElse (fun _ => mrx fuel b prev s k)
    | .opt a => (mrx fuel a prev s k).orElse (fun _ => k prev s)
    | .star a =>
      (mrx fuel a prev s (fun p2 t =>
        if t.length < s.length then mrx fuel (.star a) p2 t k else none)).orElse
        (fun _ => k prev s)
    | .starL a =>
      (k prev s).orElse (fun _ =>
        mrx fuel a prev s (fun p2 t =>
          if t.length < s.length then mrx fuel (.starL a) p2 t k else none))
    | .bos => if prev = none then k prev s else none
    | .bol => if prev = none ∨ prev = some '\n' then k prev s else none
    | .eol => if s = [] ∨ s.head? = some '\n' then k prev s else none
    | .wb => if wordOpt prev ≠ wordHead s then k prev s else none

/-- Length of the leftmost match of `r` at the current position, if any. -/
def mrxLen (fuel : Nat) (r : Rx) (prev : Option Char) (s : List Char) : Option Nat :=
  match mrx fuel r prev s (fun _ t => some t) with
  | some t => some (s.length - t.length)
  | none => none

/-- Fuel used for a concrete run of the engine over input `s`. -/
def rxFuel (s : List Char) : Nat := (s.length + 2) * 1000

/-- Number of matches found by a global regex scan (`String.prototype.match`
with the `g` flag): repeatedly take the leftmost match, continue after
it, and advance one character past an empty match.  `steps` is a
structural-recursion bound on the number of scan positions; every call
in this file passes the input length plus one, which is enough since at
least one character is consumed per step. -/
def scanCountRx (fuel : Nat) (r : Rx) : Nat → Option Char → List Char → Nat
  | 0, _, _ => 0
  | _, _, [] => 0
  | steps + 1, prev, c :: rest =>
    match mrxLen fuel r prev (c :: rest) with
    | some k =>
      if 0 < k then
        1 + scanCountRx fuel r steps (((c :: rest).take k).getLast?) ((c :: rest).drop k)
      else 1 + scanCountRx fuel r steps (some c) rest
    | none => scanCountRx fuel r steps (some c) rest

/-- Global regex replace with a constant replacement string
(`String.prototype.replace` with the `g` flag and no capture groups in
the replacement): each leftmost match is replaced, scanning resumes
after the match, and an empty match inserts the replacement and advances
one character.  `steps` bounds the number of scan positions as in
`scanCountRx`. -/
def scanReplRx (fuel : Nat) (r : Rx) (rep : List Char) : Nat → Option Char → List Char → List Char
  | 0, _, s => s
  | _, _, [] => []
  | steps + 1, prev, c :: rest =>
    match mrxLen fuel r prev (c :: rest) with
    | some k =>
      if 0 < k then
        rep ++ scanReplRx fuel r rep steps (((c :: rest).take k).getLast?) ((c :: rest).drop k)
      else rep ++ c :: scanReplRx fuel r rep steps (some c) rest
    | none => c :: scanReplRx fuel r rep steps (some c) rest

/-- Sequencing of a list of regexes. -/
def rxCat (rs : List Rx) : Rx := rs.foldr Rx.seq .eps

/-- Alternation of a list of regexes, preferring earlier entries. -/
def rxAlt (rs : List Rx) : Rx := rs.foldr Rx.alt .fail

/-- Literal character. -/
def rxC (c : Char) : Rx := .ch (fun d => d = c)

/-- Case-insensitive literal character (ASCII). -/
def rxCI (c : Char) : Rx := .ch (fun d => d.toLower = c.toLower)

/-- Literal string. -/
def rxLit (s : String) : Rx := rxCat (s.data.map rxC)

/-- Case-insensitive literal string (the `i` flag). -/
def rxLitCI (s : String) : Rx := rxCat (s.data.map rxCI)

/-- One-or-more repetition `+` (greedy). -/
def rxPlus (a : Rx) : Rx := .seq a (.star a)

/-- Bounded-below repetition `{3,}` (greedy). -/
def rxRep3Plus (a : Rx) : Rx := .seq a (.seq a (rxPlus a))

/-- The `\w` class. -/
def rxW : Rx := .ch isWordChar

/-- The `\s` class. -/
def rxS : Rx := .ch jsWs

/-- The `.` class (anything but a newline). -/
def rxDot : Rx := .ch (fun c => c ≠ '\n')

/-- The `[\s\S]` class (any character). -/
def rxAny : Rx := .ch (fun _ => true)

/-- A character class given by a list of alternatives, e.g. `[(:]`. -/
def rxIn (cs : List Char) : Rx := .ch (fun c => cs.contains c)

/-!
Language detection (`src/utils/codeAnalysis.ts`, unnamed source part_012):
the weighted regex rule table of `detectLanguage`, lines 44-71, each
entry transcribed from its `RegExp` literal, and the scoring fold of
lines 73-97.
-/

/-- One entry of the weighted detection rule table.  `global` records
whether the source regex carries the `g` flag: for a global regex
`code.match(re).length` is the number of matches; for the three
non-global, group-free entries at the end of the table it is `1` when a
match exists. -/
structure DetectPattern where
  rx : Rx
  language : String
  weight : Nat
  global : Bool := true

/-- The `[\w./]` class of the cpp pattern. -/
def rxWDotSlash : Rx := .ch (fun c => isWordChar c || c = '.' || c = '/')

/-- The ordered weighted rule table of `detectLanguage` (lines 46-70). -/
def detectPatterns : List DetectPattern :=
  [ { rx := rxAlt [rxCat [rxLit "export", rxPlus rxS, rxLit "default"],
        rxCat [rxLit "type", rxPlus rxS, rxPlus rxW, .star rxS, rxLit "="],
        rxCat [rxLit "interface", rxPlus rxS, rxPlus rxW],
        rxCat [rxLit "enum", rxPlus rxS, rxPlus rxW]],
      language := "typescript", weight := 3 },
    { rx := rxCat [.wb, rxAlt [rxLit "Console.WriteLine",
        rxCat [rxLit "using", rxPlus rxS, rxLit "System;"],
        rxCat [rxLit "namespace", rxPlus rxS, rxPlus rxW]]],
      language := "csharp", weight := 3 },
    { rx := rxCat [.wb, rxAlt [rxLitCI "SELECT",
        rxCat [rxLitCI "INSERT", rxPlus rxS, rxLitCI "INTO"],
        rxLitCI "UPDATE",
        rxCat [rxLitCI "DELETE", rxPlus rxS, rxLitCI "FROM"],
        rxCat [rxLitCI "CREATE", rxPlus rxS, rxLitCI "TABLE"]], rxPlus rxS],
      language := "sql", weight := 3 },
    { rx := rxAlt [rxCat [rxLit "import", rxPlus rxS, rxLit "React"],
        rxLit "React.", rxLit "useState", rxLit "useEffect", rxLit "JSX.Element"],
      language := "tsx", weight := 3 },
    { rx := rxAlt [rxCat [rxLit "from", rxPlus rxS, rxIn [squoteChar, '"'],
        rxLit "react", rxIn [squoteChar, '"']],
        rxLit "ReactDOM.", rxLit "useState", rxLit "useEffect"],
      language := "jsx", weight := 3 },
    { rx := rxAlt [rxCat [rxAlt [rxLit "const", rxLit "let", rxLit "var"],
        rxPlus rxS, rxPlus rxW, .star rxS, rxLit "=", .ch (fun c => c ≠ '=')],
        rxCat [rxLit "function", rxPlus rxS, rxPlus rxW, .star rxS, rxLit "("],
        rxLit "=>",
        rxCat [rxLit "import", rxPlus rxS,
          .ch (fun c => isWordChar c || c = lbraceChar || c = ' ')]],
      language := "javascript", weight := 2 },
    { rx := rxAlt [rxCat [.bol, .star rxS, rxAlt [rxLit "def", rxLit "class"],
        rxPlus rxS, rxPlus rxW, .star rxS, rxIn ['(', ':']],
        rxCat [.bol, .star rxS, rxLit "import", rxPlus rxS, rxPlus rxW],
        rxCat [.bol, .star rxS, rxLit "from", rxPlus rxS, rxPlus rxW]],
      language := "python", weight := 2 },
    { rx := rxAlt [rxCat [.wb, rxAlt [rxLit "public", rxLit "private", rxLit "protected"],
        rxPlus rxS, rxPlus rxW, rxPlus rxS, rxPlus rxW, .star rxS, rxC lbraceChar],
        rxCat [rxLit "class", rxPlus rxS, rxPlus rxW]],
      language := "java", weight := 2 },
    { rx := rxAlt [rxCat [rxLit "#include", rxPlus rxS, rxIn ['<', '"'],
        rxPlus rxWDotSlash, rxIn ['>', '"']],
        rxCat [rxLit "using", rxPlus rxS, rxLit "namespace"],
        rxLit "std::"],
      language := "cpp", weight := 2 },
    { rx := rxAlt [rxCat [.wb, rxLit "func", rxPlus rxS, rxPlus rxW, .star rxS, rxLit "("],
        rxCat [rxLit "package", rxPlus rxS, rxLit "main"],
        rxCat [rxLit "import", rxPlus rxS, rxLit "("]],
      language := "go", weight := 2 },
    { rx := rxAlt [rxLit "<?php",
        rxCat [rxLit "$", rxPlus rxW, .star rxS, rxLit "="],
        rxCat [rxLit "$_", rxPlus rxW]],
      language := "php", weight := 2 },
    { rx := rxAlt [rxCat [rxIn ['.', '#'], rxPlus rxW, .star rxS, rxC lbraceChar,
        .star (.ch (fun c => c ≠ rbraceChar)), rxC rbraceChar],
        rxCat [rxLit "@", rxAlt [rxLit "media", rxLit "keyframes", rxLit "import"]]],
      language := "css", weight := 2 },
    { rx := rxAlt [rxCat [.wb, rxLit "fn", rxPlus rxS, rxPlus rxW, .star rxS, rxLit "("],
        rxCat [rxLit "let", rxPlus rxS, rxLit "mut"],
        rxLit "println!"],
      language := "rust", weight := 2 },
    { rx := rxAlt [rxCat [.wb, rxLit "fun", rxPlus rxS, rxPlus rxW, .star rxS, rxLit "("],
        rxCat [rxLit "val", rxPlus rxS, rxPlus rxW, .star rxS, rxIn [':', '=']],
        rxCat [rxLit "var", rxPlus rxS, rxPlus rxW, .star rxS, rxIn [':', '=']]],
      language := "kotlin", weight := 2 },
    { rx := rxAlt [rxCat [rxLit "func", rxPlus rxS, rxPlus rxW, .star rxS, rxLit "("],
        rxCat [rxLit "defer", rxPlus rxS, rxPlus rxW],
        rxLit "goroutine"],
      language := "go", weight := 2 },
    { rx := rxAlt [rxCat [rxLit "public", rxPlus rxS, rxLit "static", rxPlus rxS,
        rxLit "void", rxPlus rxS, rxLit "main"],
        rxCat [rxLit "String[]", rxPlus rxS, rxLit "args"]],
      language := "java", weight := 2 },
    { rx := rxAlt [rxCat [rxLit "<", rxPlus rxW, .star (.ch (fun c => c ≠ '>')),
        rxLit ">", .star rxDot, rxLit "</", rxPlus rxW, rxLit ">"],
        rxCat [rxLit "</", rxPlus rxW, rxLit ">"]],
      language := "html", weight := 1 },
    { rx := rxCat [rxLitCI "<!DOCTYPE", rxPlus rxS, rxLitCI "html>"],
      language := "html", weight := 2, global := false },
    { rx := rxCat [rxLit "def", rxPlus rxS, rxPlus rxW, .star rxS, rxLit "("],
      language := "python", weight := 1, global := false },
    { rx := rxCat [rxLit "function", rxPlus rxS, rxPlus rxW, .star rxS, rxLit "("],
      language := "javascript", weight := 1, global := false },
    { rx := rxCat [rxLit "class", rxPlus rxS, rxPlus rxW],
      language := "java", weight := 1, global := false } ]

/-- Number of matches contributed by a table entry on the given code
(`(code.match(pattern) || []).length` in the source; the three
non-global entries have no capture groups, so a successful non-global
match yields a length-1 array). -/
def countPattern (p : DetectPattern) (code : List Char) : Nat :=
  if p.global then scanCountRx (rxFuel code) p.rx (code.length + 1) none code
  else min (scanCountRx (rxFuel code) p.rx (code.length + 1) none code) 1

/-- Score accumulation into a JavaScript object used as a record:
`scores[language] = (scores[language] || 0) + matches * weight`
preserves first-insertion order of the keys. -/
def addScore (scores : List (String × Nat)) (lang : String) (v : Nat) :
    List (String × Nat) :=
  match scores with
  | [] => [(lang, v)]
  | (l, x) :: rest => if l = lang then (l, x + v) :: rest else (l, x) :: addScore rest lang v

/-- The scoring fold of `detectLanguage`, lines 73-79. -/
def detectScores (code : List Char) : List (String × Nat) :=
  detectPatterns.foldl
    (fun sc p =>
      let m := countPattern p code
      if 0 < m then addScore sc p.language (m * p.weight) else sc) []

/-- Selection of lines 82-83:
`Object.entries(scores).sort(([,a],[,b]) => b - a)[0]` with the
destructuring default `[bestLanguage = 'unknown', score = 0]`.  A stable
descending sort puts the first-inserted maximal entry at index 0, which
the left fold below computes directly. -/
def bestEntry : List (String × Nat) → String × Nat
  | [] => ("unknown", 0)
  | e :: rest => rest.foldl (fun b x => if b.2 < x.2 then x else b) e

/-- Confidence of line 86:
`Math.min(100, Math.round((score / (code.length * 0.01)) * 100))`,
modelled with exact rational arithmetic:
`score / (len/100) * 100 = 10000*score/len` and `Math.round(q) =
floor(q + 1/2)`, so the result is `min 100 ((20000*score + len) / (2*len))`
in integer arithmetic.  (The source computes this in IEEE doubles; the
rational model agrees on every value these theorems evaluate.) -/
def jsConfidence (score len : Nat) : Nat :=
  min 100 ((20000 * score + len) / (2 * len))

/-- Result record of `detectLanguage` (part_012, lines 6-10). -/
structure LanguageDetectionResult where
  language : String
  confidence : Nat
  fallback : Option Bool := none
deriving DecidableEq

/-- Options record of `detectLanguage` (part_012, lines 12-16) with the
defaults of line 25. -/
structure CodeAnalysisConfig where
  useAI : Bool := true
  minConfidence : Nat := 0
  fallbackToText : Bool := true

/-- `AIService.detectLanguage` (supabase.d.ts segment, lines 68-91):
post-processing of the provider's reply
`result.trim().toLowerCase().split(' ')[0].replace(/[^a-z]/g, '')`,
with the catch branch returning "unknown".  The provider call itself is
abstracted as its outcome `groq`. -/
def aiDetectLanguage (groq : Except String String) : String :=
  match groq with
  | .error _ => "unknown"
  | .ok result =>
    String.mk ((((jsTrim result.data).map Char.toLower).takeWhile (fun c => c ≠ ' ')).filter
      Char.isLower)

/-- `detectLanguage` (part_012, lines 21-98).  The `await
AIService.detectLanguage(code)` call is abstracted by the outcome
parameter `ai`; everything else is computed as in the source: empty
input short-circuits, a usable AI answer wins with confidence 90, and
otherwise the weighted regex table is scored. -/
def detectLanguage (code : String) (cfg : CodeAnalysisConfig)
    (ai : Except String String) : LanguageDetectionResult :=
  if String.mk (jsTrim code.data) = "" then
    { language := if cfg.fallbackToText then "text" else "unknown", confidence := 0 }
  else if cfg.useAI ∧ aiDetectLanguage ai ≠ "" ∧ aiDetectLanguage ai ≠ "unknown" then
    { language := aiDetectLanguage ai, confidence := 90 }
  else
    let best := bestEntry (detectScores code.data)
    let confidence := jsConfidence best.2 code.data.length
    if confidence < cfg.minConfidence then
      { language := if cfg.fallbackToText then "text" else "unknown", confidence := 0,
        fallback := some true }
    else
      { language := best.1, confidence := confidence }

/-!
GroqService (supabase.d.ts segment, lines 324-551).
-/

/-- Fields of the groq-proxy success JSON body that the client reads
(`data.response ?? data.generatedCode ?? data.content ?? ''`). -/
structure ProxyJson where
  response : Option String := none
  generatedCode : Option String := none
  content : Option String := none
deriving DecidableEq

/-- Abstraction of the one `fetch` round trip of
`GroqService.executeWithGroq`: HTTP status, raw body text, and the
parsed JSON body (`none` when the body is not valid JSON). -/
structure HttpResponse where
  status : Nat
  bodyText : String := ""
  bodyJson : Option ProxyJson := none
deriving DecidableEq

/-- `GroqService.executeWithGroq` (lines 346-396) as a function of the
fetch outcome.  `response.ok` is `200 <= status <= 299`.  On a non-ok
response the source parses the body and throws inside a `try` block
whose own `catch` catches that very throw and rethrows
`Groq proxy error: STATUS - BODY`, so the status-and-body message is
produced for every non-ok response regardless of the parse.  On an ok
response the first present field of `response`, `generatedCode`,
`content` is returned, defaulting to the empty string; a body that is
not JSON makes `response.json()` throw, which the outer catch rethrows. -/
def executeWithGroq (r : HttpResponse) : Except String String :=
  if 200 ≤ r.status ∧ r.status ≤ 299 then
    match r.bodyJson with
    | some j =>
      .ok (((j.response.orElse fun _ => j.generatedCode).orElse fun _ => j.content).getD "")
    | none => .error "Groq proxy error: invalid JSON"
  else
    .error ("Groq proxy error: " ++ toString r.status ++ " - " ++ r.bodyText)

/-- Lazy search for the fence terminator `\n```$` (with `$` in
multiline mode: before a newline or at the end).  Returns the body
before the terminator and the input remaining after the final backtick. -/
def findFenceEnd : List Char → Option (List Char × List Char)
  | [] => none
  | c :: rest =>
    if c = '\n' ∧ rest.head? = some tickChar ∧ rest.tail.head? = some tickChar ∧
        rest.tail.tail.head? = some tickChar ∧
        (rest.tail.tail.tail = [] ∨ rest.tail.tail.tail.head? = some '\n') then
      some ([], rest.tail.tail.tail)
    else
      match findFenceEnd rest with
      | some (body, after) => some (c :: body, after)
      | none => none

/-- First replace of `GroqService.cleanCodeResponse` (line 451):
`code.replace(/^```(?:\w+)?\n([\s\S]*?)\n```$/gm, '$1')`.  At a line
start, a fence header (three backticks, an optional word run, a
newline) followed lazily by a body and the terminator `\n```$` is
replaced by the body; scanning resumes after the final backtick.
`steps` bounds the number of scan positions as in `scanCountRx`. -/
def stripFencedBlocks : Nat → Option Char → List Char → List Char
  | 0, _, s => s
  | _, _, [] => []
  | steps + 1, prev, c :: rest =>
    if (prev = none ∨ prev = some '\n') ∧ c = tickChar ∧ rest.head? = some tickChar ∧
        rest.tail.head? = some tickChar ∧
        ((rest.tail.tail).dropWhile isWordChar).head? = some '\n' then
      match findFenceEnd (((rest.tail.tail).dropWhile isWordChar).tail) with
      | some (body, after) => body ++ stripFencedBlocks steps (some tickChar) after
      | none => c :: stripFencedBlocks steps (some c) rest
    else c :: stripFencedBlocks steps (some c) rest

/-- The `patternsToRemove` array of `cleanCodeResponse` (lines 457-474),
in source order; every entry is replaced by the empty string.  Entries
359 and 361 of the array use `^` without the `m` flag (`.bos`), the
rest use `^` with `m` (`.bol`). -/
def patternsToRemove : List Rx :=
  [ rxCat [.bol, rxLit "/*", .starL rxAny, rxLit "*/", .star rxS, .opt (rxC '\n')],
    rxCat [.bol, rxLit "//", .star rxDot,
      rxAlt [rxLitCI "generated", rxLitCI "example", rxLitCI "template", rxLitCI "todo",
        rxLitCI "note:", rxLitCI "note that", rxLitCI "please", rxLitCI "change this",
        rxLitCI "implement", rxLitCI "TODO:", rxLitCI "FIXME:"],
      .star rxDot, .opt (rxC '\n')],
    rxCat [.bos, rxLit "#!/", .star rxDot, .opt (rxC '\n')],
    rxCat [.bol, rxLit "/*", .starL rxAny, rxLitCI "replace this", .starL rxDot,
      rxLit "*/", .star rxS, .opt (rxC '\n')],
    rxCat [.bol, rxLit "//", .star rxS,
      rxAlt [rxLitCI "TODO", rxLitCI "FIXME", rxLitCI "NOTE", rxLitCI "HACK", rxLitCI "XXX"],
      .star rxDot, .opt (rxC '\n')],
    rxCat [.bol, rxLit "//", .star rxS, rxLitCI "Your code here", .star rxDot, .opt (rxC '\n')],
    rxCat [.bol, rxLit "//", .star rxS, rxLitCI "Add your ", .star rxDot, rxLitCI " here",
      .star rxDot, .opt (rxC '\n')],
    rxCat [.bol, rxLit "//", .star rxS, rxLitCI "Implement ", .star rxDot, .opt (rxC '\n')],
    rxCat [.bos, rxAlt [rxCat [rxLitCI "Here", .opt (rxC squoteChar), rxLitCI "s"],
      rxLitCI "Here is", rxLitCI "Here are"], .starL rxDot, rxLit ":", rxC '\n',
      .opt (rxC '\n')],
    rxCat [.bos, rxLitCI "The following ", .starL rxDot, rxLit ":", rxC '\n', .opt (rxC '\n')],
    rxCat [.bos, rxLitCI "To get started", .starL rxDot, rxLit ":", rxC '\n', .opt (rxC '\n')],
    rxCat [.bos, .star rxS, rxPlus (rxC '\n')] ]

/-- Line 481: `cleaned.replace(/^\s*\/\/.*\n?/gm, '')`. -/
def rxLoneLineComment : Rx :=
  rxCat [.bol, .star rxS, rxLit "//", .star rxDot, .opt (rxC '\n')]

/-- Line 484: `cleaned.replace(/\n{3,}/g, '\n\n')`. -/
def rxTripleNewline : Rx := rxRep3Plus (rxC '\n')

/-- Line 451 of `cleanCodeResponse`: strip fenced blocks, then `.trim()`. -/
def cleanStage1 (code : List Char) : List Char :=
  jsTrim (stripFencedBlocks (code.length + 1) none code)

/-- Line 454: `cleaned.replace(/`/g, '')` removes every backtick. -/
def cleanStage2 (code : List Char) : List Char :=
  (cleanStage1 code).filter (fun c => c ≠ tickChar)

/-- Lines 476-478: `patternsToRemove.forEach(p => cleaned = cleaned.replace(p, ''))`. -/
def cleanStage3 (code : List Char) : List Char :=
  patternsToRemove.foldl (fun s p => scanReplRx (rxFuel s) p [] (s.length + 1) none s)
    (cleanStage2 code)

/-- Line 481: remove single-line comments alone on their line. -/
def cleanStage4 (code : List Char) : List Char :=
  scanReplRx (rxFuel (cleanStage3 code)) rxLoneLineComment []
    ((cleanStage3 code).length + 1) none (cleanStage3 code)

/-- Line 484: collapse three or more consecutive newlines to two. -/
def cleanStage5 (code : List Char) : List Char :=
  scanReplRx (rxFuel (cleanStage4 code)) rxTripleNewline ['\n', '\n']
    ((cleanStage4 code).length + 1) none (cleanStage4 code)

/-- `GroqService.cleanCodeResponse` (lines 449-488), assembled from the
stages above and line 487's `cleaned.trim() + '\n'`.  The `language`
parameter is accepted and ignored exactly as in the source. -/
def cleanCodeResponse (code : List Char) (language : String) : List Char :=
  jsTrim (cleanStage5 code) ++ ['\n']

/-- `GroqService.generateCode` (lines 398-447): on success the response
is cleaned; the catch branch replaces any error with a fixed message. -/
def generateCode (language : String) (groq : Except String String) : Except String String :=
  match groq with
  | .ok result => .ok (String.mk (cleanCodeResponse result.data language))
  | .error _ =>
    .error "Failed to generate code. Please try again with a more specific prompt."

/-- `GroqService.generateTests` (lines 490-499): on success the response
is cleaned; errors propagate unchanged (no catch). -/
def generateTests (language : String) (groq : Except String String) : Except String String :=
  match groq with
  | .ok result => .ok (String.mk (cleanCodeResponse result.data language))
  | .error e => .error e

/-!
CodeExplanation.tsx: `handleExplain` (lines 105-238) and its helpers.
-/

/-- Substring test on `List Char` (JavaScript `String.prototype.includes`
and single-literal regex tests). -/
def containsSub (pat l : List Char) : Bool := decide (pat <:+: l)

/-- `validateRequired` (`src/utils/errorHandler.ts`, lines 103-109):
fails when the value is empty or trims to the empty string. -/
def validateRequired (value : String) : Bool :=
  if value = "" ∨ jsTrim value.data = [] then false else true

/-- The `<\w+` alternative of the markup pre-check regex: an opening
angle bracket immediately followed by a word character. -/
def hasAngleTag : List Char → Bool
  | [] => false
  | c :: rest => if c = '<' ∧ wordHead rest = true then true else hasAngleTag rest

/-- The markup pre-check of `handleExplain` (lines 114-118):
`/<Card|className|ref=|React\.|tsx|jsx|<\w+/.test(trimmed) ||
trimmed.includes("<div") || trimmed.includes("return (")`. -/
def markupPre (trimmed : List Char) : Bool :=
  containsSub "<Card".data trimmed || containsSub "className".data trimmed ||
  containsSub "ref=".data trimmed || containsSub "React.".data trimmed ||
  containsSub "tsx".data trimmed || containsSub "jsx".data trimmed ||
  hasAngleTag trimmed ||
  containsSub "<div".data trimmed || containsSub "return (".data trimmed

/-- The keyword table of the local comment fallback (lines 178-200). -/
def keywordMap : List (String × String) :=
  [("function", "Define a function"), ("let", "Create a variable"),
   ("const", "Create a constant"), ("var", "Create a variable"),
   ("return", "Return a value"), ("if", "Check condition"), ("else", "Otherwise"),
   ("for", "Loop over items"), ("while", "Loop while true"), ("try", "Try to run code"),
   ("catch", "Catch errors"), ("throw", "Throw an error"), ("class", "Define a class"),
   ("import", "Import module"), ("from", "Import from module"),
   ("export", "Export something"), ("def", "Define a function (Python)"),
   ("print", "Print output"), ("console", "Print to console"),
   ("async", "Run asynchronously"), ("await", "Wait for promise")]

/-- Per-line comment of the fallback (lines 205-208):
`trimmedLine.split(" ")[0].replace(/[^a-zA-Z]/g, "").toLowerCase()`
read with `map[first] || "Do something"` on a plain object literal.  The
JS property read also walks the prototype chain: since the token is
filtered to alphabetic characters and lowercased, the only reachable
inherited property of `Object.prototype` is "constructor" (every other
own property of `Object.prototype` contains an uppercase letter or an
underscore), and the inherited constructor function is truthy and
stringifies in the template literal as the native-code source text of
`Object`. -/
def commentFor (line : List Char) : String :=
  if String.mk ((((jsTrim line).takeWhile (fun c => c ≠ ' ')).filter
      Char.isAlpha).map Char.toLower) = "constructor" then
    "function Object() \x7b [native code] \x7d"
  else
    (keywordMap.lookup (String.mk ((((jsTrim line).takeWhile (fun c => c ≠ ' ')).filter
      Char.isAlpha).map Char.toLower))).getD "Do something"

/-- JavaScript `str.split("\n")`: always returns at least one piece. -/
def splitNL : List Char → List (List Char)
  | [] => [[]]
  | c :: rest =>
    if c = '\n' then [] :: splitNL rest
    else
      match splitNL rest with
      | h :: t => (c :: h) :: t
      | [] => [[c]]

/-- JavaScript `arr.join("\n")`. -/
def joinNL : List (List Char) → List Char
  | [] => []
  | [x] => x
  | x :: xs => x ++ '\n' :: joinNL xs

/-- The keyword-comment fallback substitution (lines 202-211): every
line whose trim is nonempty is preceded by `// <comment>`; blank lines
pass through. -/
def keywordCommentLines (sourceCode : List Char) : List Char :=
  joinNL ((splitNL sourceCode).map (fun line =>
    if jsTrim line = [] then line
    else ("// ".data ++ (commentFor line).data) ++ '\n' :: line))

/-- Outcome of one run of `handleExplain`; the UI effects (toasts, state
updates, the fire-and-forget Supabase insert) are not modelled beyond
which branch was taken. -/
inductive ExplainOutcome where
  | noCode
  | invalidInput
  | jsxDetected
  | success (explanation : String)
  | failure (msg : String)
deriving DecidableEq

/-- `handleExplain` (CodeExplanation.tsx, lines 105-238) as a function
of the source code and the chat-completion outcome `ai`.  The second
component counts chat-completion requests issued, so the pre-check
branches prove that no request is constructed there.  The length test
`result.length < sourceCode.length * 0.6` is modelled in exact
arithmetic as `10 * result.length < 6 * sourceCode.length`. -/
def handleExplain (sourceCode : String) (ai : Except String String) :
    ExplainOutcome × Nat :=
  if validateRequired sourceCode = false then (.noCode, 0)
  else if markupPre (jsTrim sourceCode.data) then (.invalidInput, 0)
  else
    match ai with
    | .error msg => (.failure msg, 1)
    | .ok raw =>
      let result := normalizeExplain raw.data
      if containsSub "ERROR: JSX".data result then (.jsxDetected, 1)
      else if containsSub "//".data result = false ∨
          10 * result.length < 6 * sourceCode.data.length then
        (.success (String.mk (keywordCommentLines sourceCode.data)), 1)
      else (.success (String.mk result), 1)

/-!
Test generator (unnamed source part_002): the language-to-framework
table (lines 81-103) and the fallback test synthesizer (lines 126-166).
-/

/-- One row of `frameworkMap`. -/
structure FrameworkEntry where
  framework : String
  ext : String
  testFile : String → String

/-- `frameworkMap` (part_002, lines 81-101). -/
def frameworkMap : List (String × FrameworkEntry) :=
  [("javascript", { framework := "Jest", ext := "js", testFile := fun n => n ++ ".test.js" }),
   ("typescript", { framework := "Jest", ext := "ts", testFile := fun n => n ++ ".test.ts" }),
   ("jsx", { framework := "Jest + React Testing Library", ext := "jsx",
             testFile := fun n => n ++ ".test.jsx" }),
   ("tsx", { framework := "Jest + React Testing Library", ext := "tsx",
             testFile := fun n => n ++ ".test.tsx" }),
   ("python", { framework := "pytest", ext := "py", testFile := fun n => "test_" ++ n ++ ".py" }),
   ("java", { framework := "JUnit 5", ext := "java", testFile := fun n => n ++ "Test.java" }),
   ("csharp", { framework := "xUnit", ext := "cs", testFile := fun n => n ++ "Tests.cs" }),
   ("php", { framework := "PHPUnit", ext := "php", testFile := fun n => n ++ "Test.php" }),
   ("ruby", { framework := "RSpec", ext := "rb", testFile := fun n => n ++ "_spec.rb" }),
   ("go", { framework := "testing", ext := "go", testFile := fun n => n ++ "_test.go" }),
   ("rust", { framework := "cargo test", ext := "rs", testFile := fun n => n ++ "_test.rs" }),
   ("kotlin", { framework := "JUnit 5", ext := "kt", testFile := fun n => n ++ "Test.kt" }),
   ("swift", { framework := "XCTest", ext := "swift", testFile := fun n => n ++ "Tests.swift" }),
   ("dart", { framework := "test", ext := "dart", testFile := fun n => n ++ "_test.dart" }),
   ("html", { framework := "Jest + JSDOM", ext := "html",
              testFile := fun n => "test_" ++ n ++ ".html" }),
   ("css", { framework := "Jest + jest-css-modules", ext := "css",
             testFile := fun n => n ++ ".test.css" })]

/-- `getFramework` (part_002, line 103). -/
def getFramework (lang : String) : FrameworkEntry :=
  (frameworkMap.lookup lang.toLower).getD
    { framework := "Unknown", ext := "txt", testFile := fun _ => "test.txt" }

/-- The `templates` record of `generateFallbackTests` (part_002, lines
128-161), parameterized by the `identifier` component state the source
closes over. -/
def testTemplates (identifier : String) : List (String × String) :=
  [("python", "import pytest\n\ndef test_" ++ identifier ++
      "():\n    \"\"\"Test core functionality\"\"\"\n    # TODO: Implement real test\n    assert True\n\ndef test_edge_case():\n    assert True\n"),
   ("javascript", "test(\x27" ++ identifier ++
      " works\x27, () => \x7b\n  expect(true).toBe(true);\n\x7d);\n\ntest(\x27handles edge case\x27, () => \x7b\n  expect(true).toBe(true);\n\x7d);\n"),
   ("java", "@Test\nvoid test" ++ identifier ++
      "() \x7b\n    assertTrue(true);\n\x7d\n\n@Test\nvoid testEdgeCase() \x7b\n    assertTrue(true);\n\x7d\n"),
   ("typescript", "test(\x27" ++ identifier ++
      " works\x27, () => \x7b\n  expect(true).toBe(true);\n\x7d);\n")]

/-- `generateFallbackTests` (part_002, lines 126-166): pick the template
for the detected language, or the generic comment placeholder
`// Tests for ID\n// Using FRAMEWORK\n\n// Add real tests`.  The
`quality` argument is accepted and (as in the source) never used in the
produced content. -/
def generateFallbackTests (identifier lang framework quality : String) : String :=
  ((testTemplates identifier).lookup lang).getD
    ("// Tests for " ++ identifier ++ "\n// Using " ++ framework ++ "\n\n// Add real tests")

/-!
Quick-fix fallback synthesizers (`src/utils/quickFixAITools.ts`).
-/

/-- Bug-detection section of `generateDebugRefactorFallback` (lines 11-27). -/
def debugBugsSection : String :=
  "\n## 🐛 Bug Detection\n\n### Potential Issues Found:\n- **Null/Undefined Checks**: Consider adding null checks for variables\n- **Error Handling**: Missing try-catch blocks for error-prone operations\n- **Type Safety**: Verify data types before operations\n- **Edge Cases**: Handle boundary conditions and empty inputs\n\n### Recommendations:\n- Add input validation\n- Implement proper error handling\n- Use defensive programming techniques\n- Add logging for debugging purposes\n\n---\n"

/-- Performance section of `generateDebugRefactorFallback` (lines 29-45). -/
def debugPerfSection : String :=
  "\n## ⚡ Performance Analysis\n\n### Performance Issues:\n- **Time Complexity**: Review algorithm efficiency\n- **Memory Usage**: Check for memory leaks and unnecessary allocations\n- **Loop Optimization**: Consider optimizing nested loops\n- **Caching**: Implement caching for repeated calculations\n\n### Optimization Suggestions:\n- Use more efficient data structures\n- Minimize DOM manipulations\n- Implement lazy loading where applicable\n- Consider memoization for expensive operations\n\n---\n"

/-- Refactoring section of `generateDebugRefactorFallback` (lines 47-63). -/
def debugRefactorSection : String :=
  "\n## 🔄 Refactoring Suggestions\n\n### Code Structure:\n- **Function Length**: Break down large functions into smaller ones\n- **Code Duplication**: Extract common code into reusable functions\n- **Naming Conventions**: Use descriptive variable and function names\n- **Separation of Concerns**: Separate business logic from presentation\n\n### Improvements:\n- Extract constants for magic numbers\n- Use design patterns where appropriate\n- Improve code readability with better formatting\n- Add meaningful comments for complex logic\n\n---\n"

/-- Best-practices section of `generateDebugRefactorFallback` (lines 65-81). -/
def debugBestSection : String :=
  "\n## ✅ Best Practices Review\n\n### Code Quality:\n- **Documentation**: Add JSDoc comments for functions\n- **Testing**: Ensure adequate test coverage\n- **Security**: Review for potential security vulnerabilities\n- **Maintainability**: Structure code for easy maintenance\n\n### Standards Compliance:\n- Follow language-specific style guides\n- Use consistent indentation and formatting\n- Implement proper error handling patterns\n- Follow SOLID principles where applicable\n\n---\n"

/-- `generateDebugRefactorFallback` (quickFixAITools.ts, lines 4-87): a
pure template over `analysisTypes`; the `sourceCode` argument is
accepted and (as in the source) never used. -/
def generateDebugRefactorFallback (sourceCode : String) (analysisTypes : List String) :
    String :=
  "# Debug & Refactor Analysis\n\n## Analysis Types: " ++
  String.intercalate ", " analysisTypes ++ "\n\n---\n\n" ++
  (if analysisTypes.contains "bugs" then debugBugsSection else "") ++ "\n\n" ++
  (if analysisTypes.contains "performance" then debugPerfSection else "") ++ "\n\n" ++
  (if analysisTypes.contains "refactor" then debugRefactorSection else "") ++ "\n\n" ++
  (if analysisTypes.contains "best-practices" then debugBestSection else "") ++
  "\n\n## Summary\nThe code analysis is complete. Review the suggestions above to improve code quality, performance, and maintainability.\n\n*Configure GEMINI_API_KEY in Supabase for AI-powered detailed analysis*"

/-- Heading chain of `generateSecurityAuditFallback` (lines 189-194). -/
def securityVulnTitle (vuln : String) : String :=
  if vuln = "sql-injection" then "🗄️ SQL Injection"
  else if vuln = "xss" then "👁️ Cross-Site Scripting (XSS)"
  else if vuln = "csrf" then "🛡️ Cross-Site Request Forgery"
  else if vuln = "auth" then "🔒 Authentication Issues"
  else if vuln = "input-validation" then "⚠️ Input Validation"
  else "👁️ Sensitive Data Exposure"

/-- SQL-injection findings block (lines 198-209). -/
def securitySqlBlock : String :=
  "\n**Findings:**\n- Potential SQL injection in database queries\n- Unparameterized queries detected\n- Missing input sanitization\n\n**Recommendations:**\n- Use parameterized queries or prepared statements\n- Implement input validation and sanitization\n- Use ORM frameworks with built-in protection\n- Apply principle of least privilege for database access\n"

/-- XSS findings block (lines 211-222). -/
def securityXssBlock : String :=
  "\n**Findings:**\n- Unescaped user input in HTML output\n- Missing Content Security Policy headers\n- Potential DOM-based XSS vulnerabilities\n\n**Recommendations:**\n- Escape all user input before rendering\n- Implement Content Security Policy (CSP)\n- Use secure templating engines\n- Validate and sanitize all input data\n"

/-- One mapped section of the vulnerability assessment (lines 188-225).
`draw` is the value of the `Math.random()` call made while rendering
this section. -/
def securityVulnSection (vuln : String) (draw : ℚ) : String :=
  "\n### " ++ securityVulnTitle vuln ++ "\n\n**Status:** " ++
  (if Rat.divInt 7 10 < draw then "❌ Issues Found" else "✅ No Issues Detected") ++ "\n\n" ++
  (if vuln = "sql-injection" then securitySqlBlock else "") ++ "\n\n" ++
  (if vuln = "xss" then securityXssBlock else "") ++ "\n\n---\n"

/-- `generateSecurityAuditFallback` (quickFixAITools.ts, lines 175-243).
Two ambient effects of the source are made explicit parameters: `today`
is `new Date().toLocaleDateString()` and `draws i` is the result of the
`Math.random()` call made for the `i`-th vulnerability type (modelled as
a rational in place of an IEEE double; only its comparison with 0.7 is
ever used). -/
def generateSecurityAuditFallback (vulnerabilityTypes : List String) (today : String)
    (draws : Nat → ℚ) : String :=
  "# 🔒 Security Audit Report\n\n## Executive Summary\nSecurity audit completed for " ++
  toString vulnerabilityTypes.length ++
  " vulnerability categories.\n\n**Scan Date:** " ++ today ++
  "\n**Vulnerability Categories:** " ++ String.intercalate ", " vulnerabilityTypes ++
  "\n\n---\n\n## Vulnerability Assessment\n\n" ++
  String.join (vulnerabilityTypes.enum.map (fun p => securityVulnSection p.2 (draws p.1))) ++
  "\n\n## Security Best Practices\n\n1. **Input Validation**: Always validate and sanitize user input\n2. **Authentication**: Implement strong authentication mechanisms\n3. **Authorization**: Apply proper access controls\n4. **Encryption**: Use HTTPS and encrypt sensitive data\n5. **Error Handling**: Don\x27t expose sensitive information in errors\n6. **Logging**: Implement comprehensive security logging\n7. **Updates**: Keep dependencies and frameworks updated\n8. **Testing**: Regular security testing and code reviews\n\n---\n\n*Configure GEMINI_API_KEY in Supabase for AI-powered detailed security analysis*\n\n**Disclaimer:** This is an automated security audit. Manual review by security experts is recommended for production systems."

/-!
AIApiCaller (`src/utils/aiApiCaller.ts`).
-/

/-- Which branch of an `AIApiCaller` method produced a result's content:
a completed provider call, the caller-supplied fallback content, or the
hardcoded local notice of `callCodeOptimization`.  This is verification
instrumentation derived from the control flow, not a source field. -/
inductive ContentOrigin where
  | provider
  | fallback
  | localCanned
deriving DecidableEq

/-- The `StandardizedOutput` fields the invariant claims talk about; the
`metadata` record (model name, timestamp, error message) is not needed
by any claim and is omitted. -/
structure StandardizedOutput where
  content : String
  isPlaceholder : Bool
deriving DecidableEq

/-- `AIApiCaller.callAIFunction` (lines 13-73): the dispatched
GroqService call is abstracted by its outcome `groq`; on success the
result is wrapped with `isPlaceholder := false`, on any thrown error the
catch branch wraps the error message and the caller-supplied fallback
content with `isPlaceholder := true`.  The second component records the
originating branch. -/
def callAIFunction (fallbackContent : String) (groq : Except String String) :
    StandardizedOutput × ContentOrigin :=
  match groq with
  | .ok result => ({ content := result, isPlaceholder := false }, .provider)
  | .error msg =>
    ({ content := "Error: " ++ msg ++ "\n\n" ++ fallbackContent, isPlaceholder := true },
      .fallback)

/-- `AIApiCaller.callCodeOptimization` (lines 76-124): returns the pair
(optimizedCode, analysisReport).  In the success branch the analysis
report is the hardcoded local string of line 98 with
`isPlaceholder := false`; in the catch branch both results carry the
caller-supplied fallbacks with `isPlaceholder := true`. -/
def callCodeOptimization (fallbackCode fallbackAnalysis : String)
    (groq : Except String String) :
    (StandardizedOutput × ContentOrigin) × (StandardizedOutput × ContentOrigin) :=
  match groq with
  | .ok optimizedCode =>
    (({ content := optimizedCode, isPlaceholder := false }, .provider),
     ({ content := "Code optimization analysis is included in the optimized code comments.",
        isPlaceholder := false }, .localCanned))
  | .error msg =>
    (({ content := fallbackCode, isPlaceholder := true }, .fallback),
     ({ content := fallbackAnalysis, isPlaceholder := true }, .fallback))

/-!
Supporting lemmas for the claim theorems.
-/

theorem foldl_scores_eq {code : List Char} :
    ∀ (L : List DetectPattern) (acc : List (String × Nat)),
      (∀ p ∈ L, countPattern p code = 0) →
      (L.foldl (fun sc p =>
        let m := countPattern p code
        if 0 < m then addScore sc p.language (m * p.weight) else sc) acc) = acc := by
  intro L
  induction L with
  | nil => intro acc h; rfl
  | cons p L ih =>
    intro acc h
    have hp : countPattern p code = 0 := h p (List.mem_cons_self p L)
    rw [List.foldl_cons]
    have hstep : (let m := countPattern p code
        if 0 < m then addScore acc p.language (m * p.weight) else acc) = acc := by
      simp [hp]
    rw [hstep]
    exact ih acc (fun q hq => h q (List.mem_cons_of_mem p hq))

theorem infix_dropWhile_of_head {p : Char → Bool} {pat l : List Char}
    (hne : pat ≠ []) (hp : ∀ c, pat.head? = some c → p c = false) (h : pat <:+: l) :
    pat <:+: l.dropWhile p := by
  induction l with
  | nil => exact absurd (List.infix_nil.mp h) hne
  | cons c rest ih =>
    rw [List.dropWhile_cons]
    by_cases hc : p c
    · rw [if_pos hc]
      apply ih
      obtain ⟨s, t, hst⟩ := h
      cases s with
      | nil =>
        exfalso
        cases pat with
        | nil => exact hne rfl
        | cons d pd =>
          simp only [List.nil_append, List.cons_append, List.cons.injEq] at hst
          have hd : p d = false := hp d rfl
          rw [hst.1, hc] at hd
          exact Bool.noConfusion hd
      | cons x s2 =>
        simp only [List.cons_append, List.cons.injEq] at hst
        exact ⟨s2, t, hst.2⟩
    · rw [if_neg hc]
      exact h

theorem infix_jsTrim_of_edges {pat l : List Char} (hne : pat ≠ [])
    (hh : ∀ c, pat.head? = some c → jsWs c = false)
    (hg : ∀ c, pat.getLast? = some c → jsWs c = false)
    (h : pat <:+: l) : pat <:+: jsTrim l := by
  have h1 : pat <:+: l.dropWhile jsWs := infix_dropWhile_of_head hne hh h
  have h2 : pat.reverse <:+: (l.dropWhile jsWs).reverse := List.reverse_infix.mpr h1
  have h3 : pat.reverse <:+: ((l.dropWhile jsWs).reverse).dropWhile jsWs :=
    infix_dropWhile_of_head (by simpa using hne)
      (fun c hc => hg c (by rwa [List.head?_reverse] at hc)) h2
  have h4 : pat.reverse <:+:
      ((((l.dropWhile jsWs).reverse).dropWhile jsWs).reverse).reverse := by
    rwa [List.reverse_reverse]
  exact List.reverse_infix.mp h4

theorem wordChar_not_ws {c : Char} (h : isWordChar c = true) : jsWs c = false := by
  by_contra hws
  have hws2 : jsWs c = true := by
    cases hb : jsWs c with
    | false => exact absurd hb hws
    | true => rfl
  simp only [jsWs, Bool.or_eq_true, decide_eq_true_eq] at hws2
  rcases hws2 with ((((h1 | h1) | h1) | h1) | h1) | h1 <;>
    · rw [h1] at h
      simp [isWordChar] at h

theorem hasAngleTag_iff (l : List Char) :
    hasAngleTag l = true ↔ ∃ c, isWordChar c = true ∧ ['<', c] <:+: l := by
  induction l with
  | nil =>
    simp only [hasAngleTag]
    constructor
    · intro h; exact absurd h (by simp)
    · rintro ⟨c, -, hinf⟩
      exact absurd (List.infix_nil.mp hinf) (by simp)
  | cons a rest ih =>
    rw [hasAngleTag]
    by_cases hcond : a = '<' ∧ wordHead rest = true
    · rw [if_pos hcond]
      obtain ⟨ha, hw⟩ := hcond
      cases rest with
      | nil => simp [wordHead] at hw
      | cons d rest2 =>
        simp only [wordHead] at hw
        exact iff_of_true rfl ⟨d, hw, [], rest2, by simp [ha]⟩
    · rw [if_neg hcond]
      rw [ih]
      constructor
      · rintro ⟨c, hc, hinf⟩
        exact ⟨c, hc, hinf.trans (List.infix_cons (List.infix_refl _))⟩
      · rintro ⟨c, hc, s, t, hst⟩
        cases s with
        | nil =>
          exfalso
          apply hcond
          simp only [List.nil_append, List.cons_append, List.cons.injEq] at hst
          refine ⟨hst.1.symm, ?_⟩
          rw [← hst.2]
          simp [wordHead, hc]
        | cons x s2 =>
          simp only [List.cons_append, List.cons.injEq] at hst
          exact ⟨c, hc, s2, t, hst.2⟩

theorem handleExplain_invalid_of_markup (sourceCode : String)
    (ai : Except String String)
    (hmk : markupPre (jsTrim sourceCode.data) = true)
    (hnz : jsTrim sourceCode.data ≠ []) :
    handleExplain sourceCode ai = (.invalidInput, 0) := by
  have hv : validateRequired sourceCode = true := by
    unfold validateRequired
    rw [if_neg]
    rintro (hs | ht)
    · apply hnz
      rw [hs]
      rfl
    · exact hnz ht
  unfold handleExplain
  rw [if_neg (by rw [hv]; simp), if_pos hmk]

theorem lookup_mem {l : List (String × String)} {k v : String}
    (h : l.lookup k = some v) : ∃ kv ∈ l, kv.2 = v := by
  induction l with
  | nil => simp [List.lookup] at h
  | cons a t ih =>
    cases a with
    | mk k2 v2 =>
      rw [List.lookup] at h
      by_cases hk : (k == k2) = true
      · rw [hk] at h
        simp only [Option.some.injEq] at h
        exact ⟨(k2, v2), List.mem_cons_self _ _, h⟩
      · rw [Bool.eq_false_iff.mpr hk] at h
        obtain ⟨kv, hkv, hv2⟩ := ih h
        exact ⟨kv, List.mem_cons_of_mem _ hkv, hv2⟩

theorem commentFor_no_newline (line : List Char) : '\n' ∉ (commentFor line).data := by
  have hmem : ∀ kv ∈ keywordMap, '\n' ∉ kv.2.data := by decide
  unfold commentFor
  by_cases hc : String.mk ((((jsTrim line).takeWhile
      (fun c => c ≠ ' ')).filter Char.isAlpha).map Char.toLower) = "constructor"
  · rw [if_pos hc]
    decide
  · rw [if_neg hc]
    cases hl : keywordMap.lookup (String.mk ((((jsTrim line).takeWhile
        (fun c => c ≠ ' ')).filter Char.isAlpha).map Char.toLower)) with
    | none => decide
    | some v =>
      simp only [Option.getD_some]
      obtain ⟨kv, hkv, hv⟩ := lookup_mem hl
      rw [← hv]
      exact hmem kv hkv

theorem commentFor_constructor_line :
    commentFor "constructor() \x7b\x7d".data =
      "function Object() \x7b [native code] \x7d" := by
  decide

theorem splitNL_ne_nil (l : List Char) : splitNL l ≠ [] := by
  cases l with
  | nil => simp [splitNL]
  | cons c rest =>
    rw [splitNL]
    by_cases hc : c = '\n'
    · simp [hc]
    · rw [if_neg hc]
      cases h : splitNL rest with
      | nil => simp
      | cons a t => simp

theorem splitNL_no_newline {l : List Char} :
    ∀ piece ∈ splitNL l, '\n' ∉ piece := by
  induction l with
  | nil =>
    intro piece hp
    simp only [splitNL, List.mem_singleton] at hp
    rw [hp]
    simp
  | cons c rest ih =>
    intro piece hp
    rw [splitNL] at hp
    by_cases hc : c = '\n'
    · rw [if_pos hc] at hp
      rcases List.mem_cons.mp hp with h | h
      · rw [h]; simp
      · exact ih piece h
    · rw [if_neg hc] at hp
      revert hp
      cases hsp : splitNL rest with
      | nil => exact absurd hsp (splitNL_ne_nil rest)
      | cons a t =>
        intro hp
        rcases List.mem_cons.mp hp with h | h
        · rw [h]
          intro hmem
          rcases List.mem_cons.mp hmem with h2 | h2
          · exact hc h2.symm
          · exact ih a (by rw [hsp]; exact List.mem_cons_self a t) h2
        · exact ih piece (by rw [hsp]; exact List.mem_cons_of_mem a h)

theorem splitNL_of_no_newline {l : List Char} (h : '\n' ∉ l) : splitNL l = [l] := by
  induction l with
  | nil => rfl
  | cons c rest ih =>
    rw [splitNL]
    have hc : ¬ c = '\n' := fun hcc => h (by rw [hcc]; exact List.mem_cons_self _ _)
    rw [if_neg hc, ih (fun hm => h (List.mem_cons_of_mem c hm))]

theorem splitNL_append_cons {u v : List Char} (hu : '\n' ∉ u) :
    splitNL (u ++ '\n' :: v) = u :: splitNL v := by
  induction u with
  | nil => simp [splitNL]
  | cons c u2 ih =>
    have hc : ¬ c = '\n' := fun hcc => hu (by rw [hcc]; exact List.mem_cons_self _ _)
    rw [List.cons_append, splitNL, if_neg hc, ih (fun hm => hu (List.mem_cons_of_mem c hm))]

theorem keywordCommentLines_lines (sourceCode : List Char) :
    splitNL (keywordCommentLines sourceCode) =
      (splitNL sourceCode).flatMap (fun line =>
        if jsTrim line = [] then [line]
        else [("// ".data ++ (commentFor line).data), line]) := by
  have key : ∀ (lines : List (List Char)), lines ≠ [] → (∀ l ∈ lines, '\n' ∉ l) →
      splitNL (joinNL (lines.map (fun line =>
        if jsTrim line = [] then line
        else ("// ".data ++ (commentFor line).data) ++ '\n' :: line))) =
      lines.flatMap (fun line =>
        if jsTrim line = [] then [line]
        else [("// ".data ++ (commentFor line).data), line]) := by
    intro lines
    induction lines with
    | nil => intro h; exact absurd rfl h
    | cons l ls ih =>
      intro _ hnl
      have hl : '\n' ∉ l := hnl l (List.mem_cons_self _ _)
      have hcmt : '\n' ∉ ("// ".data ++ (commentFor l).data) := by
        intro hm
        rcases List.mem_append.mp hm with h1 | h1
        · simp at h1
        · exact commentFor_no_newline l h1
      cases ls with
      | nil =>
        by_cases hb : jsTrim l = []
        · simp only [List.map_cons, List.map_nil, if_pos hb, List.flatMap_cons,
            List.flatMap_nil, List.append_nil, joinNL]
          exact splitNL_of_no_newline hl
        · simp only [List.map_cons, List.map_nil, if_neg hb, List.flatMap_cons,
            List.flatMap_nil, List.append_nil, joinNL]
          rw [splitNL_append_cons hcmt, splitNL_of_no_newline hl]
      | cons l2 ls2 =>
        have hjoin : joinNL (((l :: l2 :: ls2).map (fun line =>
            if jsTrim line = [] then line
            else ("// ".data ++ (commentFor line).data) ++ '\n' :: line))) =
            (if jsTrim l = [] then l
             else ("// ".data ++ (commentFor l).data) ++ '\n' :: l) ++ '\n' ::
            joinNL ((l2 :: ls2).map (fun line =>
              if jsTrim line = [] then line
              else ("// ".data ++ (commentFor line).data) ++ '\n' :: line)) := by
          rw [List.map_cons]
          rfl
        rw [hjoin]
        have ihr := ih (by simp) (fun x hx => hnl x (List.mem_cons_of_mem l hx))
        by_cases hb : jsTrim l = []
        · rw [if_pos hb, splitNL_append_cons hl, ihr]
          simp only [List.flatMap_cons]
          rw [if_pos hb]
          rfl
        · rw [if_neg hb]
          have hshape : ∀ (v : List Char),
              ((("// ".data ++ (commentFor l).data) ++ '\n' :: l) ++ '\n' :: v) =
              ("// ".data ++ (commentFor l).data) ++ '\n' :: (l ++ '\n' :: v) := by
            intro v
            simp [List.append_assoc]
          rw [hshape, splitNL_append_cons hcmt, splitNL_append_cons hl, ihr]
          simp only [List.flatMap_cons]
          rw [if_neg hb]
          rfl
  unfold keywordCommentLines
  exact key (splitNL sourceCode) (splitNL_ne_nil sourceCode) splitNL_no_newline

/-- Property claimed for `cleanCodeResponse` output: no backtick occurs. -/
def noBacktick (l : List Char) : Prop := ∀ c ∈ l, c ≠ tickChar

/-- Property claimed for `cleanCodeResponse` output: the string ends with
a newline and the character before it (if any) is not a newline. -/
def endsWithOneNewline (l : List Char) : Prop :=
  l.getLast? = some '\n' ∧ l.dropLast.getLast? ≠ some '\n'

theorem mem_scanReplRx (fuel : Nat) (r : Rx) (rep : List Char) :
    ∀ (steps : Nat) (prev : Option Char) (s : List Char) (c : Char),
      c ∈ scanReplRx fuel r rep steps prev s → c ∈ rep ∨ c ∈ s := by
  intro steps
  induction steps with
  | zero =>
    intro prev s c h
    cases s with
    | nil => simp [scanReplRx.eq_def] at h
    | cons a rest =>
      rw [scanReplRx.eq_def] at h
      simp only at h
      exact Or.inr h
  | succ n ih =>
    intro prev s c h
    cases s with
    | nil => simp [scanReplRx.eq_def] at h
    | cons a rest =>
      rw [scanReplRx.eq_def] at h
      simp only at h
      split at h
      · split at h
        · rcases List.mem_append.mp h with h1 | h1
          · exact Or.inl h1
          · rcases ih _ _ _ h1 with h2 | h2
            · exact Or.inl h2
            · exact Or.inr (List.mem_of_mem_drop h2)
        · rcases List.mem_append.mp h with h1 | h1
          · exact Or.inl h1
          · rcases List.mem_cons.mp h1 with h2 | h2
            · exact Or.inr (by rw [h2]; exact List.mem_cons_self _ _)
            · rcases ih _ _ _ h2 with h3 | h3
              · exact Or.inl h3
              · exact Or.inr (List.mem_cons_of_mem a h3)
      · rcases List.mem_cons.mp h with h1 | h1
        · exact Or.inr (by rw [h1]; exact List.mem_cons_self _ _)
        · rcases ih _ _ _ h1 with h2 | h2
          · exact Or.inl h2
          · exact Or.inr (List.mem_cons_of_mem a h2)

theorem mem_foldl_scanRepl {c : Char} :
    ∀ (L : List Rx) (init : List Char),
      c ∈ L.foldl (fun s p => scanReplRx (rxFuel s) p [] (s.length + 1) none s) init →
      c ∈ init := by
  intro L
  induction L with
  | nil => intro init h; exact h
  | cons p L ih =>
    intro init h
    rw [List.foldl_cons] at h
    have h1 := ih _ h
    rcases mem_scanReplRx _ _ _ _ _ _ _ h1 with h2 | h2
    · simp at h2
    · exact h2

theorem mem_jsTrim {c : Char} {l : List Char} (h : c ∈ jsTrim l) : c ∈ l :=
  (jsTrim_sub l).subset h

theorem cleanStage5_noBacktick (code : List Char) : noBacktick (cleanStage5 code) := by
  intro c hc
  rcases mem_scanReplRx _ _ _ _ _ _ _ hc with h1 | h1
  · rcases List.mem_cons.mp h1 with h2 | h2
    · rw [h2]; decide
    · rcases List.mem_cons.mp h2 with h3 | h3
      · rw [h3]; decide
      · simp at h3
  · rcases mem_scanReplRx _ _ _ _ _ _ _ h1 with h2 | h2
    · simp at h2
    · have h3 := mem_foldl_scanRepl _ _ h2
      unfold cleanStage2 at h3
      rcases List.mem_filter.mp h3 with ⟨-, hp⟩
      intro hct
      rw [hct] at hp
      simp at hp

theorem cleanCodeResponse_spec (code : List Char) (language : String) :
    noBacktick (cleanCodeResponse code language) ∧
    endsWithOneNewline (cleanCodeResponse code language) := by
  constructor
  · intro c hc
    unfold cleanCodeResponse at hc
    rcases List.mem_append.mp hc with h1 | h1
    · exact cleanStage5_noBacktick code c (mem_jsTrim h1)
    · rcases List.mem_cons.mp h1 with h2 | h2
      · rw [h2]; decide
      · simp at h2
  · constructor
    · unfold cleanCodeResponse
      exact List.getLast?_concat _
    · unfold cleanCodeResponse
      rw [List.dropLast_concat]
      intro hlast
      have := jsTrim_getLast_not_ws hlast
      simp [jsWs] at this

/-!
Claim theorems.
-/

/-- Claim C1, counterexample: the full response normalization of
`handleExplain` (fence stripping, newline collapsing, blank-line
collapsing, trimming) is not idempotent.  On `"a\n \n \n b"` the
blank-line collapsing pass emits a double newline, which a second
application's newline collapsing merges into one. -/
theorem c1_counterexample :
    normalizeExplain (normalizeExplain "a\n \n \n b".data) ≠
      normalizeExplain "a\n \n \n b".data := by
  have h1 : normalizeExplain "a\n \n \n b".data = "a\n\nb".data := by
    simp +decide [normalizeExplain, stripFenceLang, stripTicks3, collapseNewlines,
      collapseBlankRuns, jsTrim]
  have h2 : normalizeExplain "a\n\nb".data = "a\nb".data := by
    simp +decide [normalizeExplain, stripFenceLang, stripTicks3, collapseNewlines,
      collapseBlankRuns, jsTrim]
  rw [h1, h2]
  decide

/-- Claim C1 (amended): the fence-marker stripping and trimming
normalization used by the test generator call site cited by the claim is
idempotent for every input; the additional newline/blank-line collapsing
passes of the CodeExplanation call site break idempotence (see the
counterexample). -/
theorem c1_amended_tests_normalize_idempotent (x : List Char) :
    normalizeTests (normalizeTests x) = normalizeTests x :=
  normalizeTests_idem x

/-- Claim C2, counterexample: on a success HTTP response whose JSON body
has none of the usable text fields, `executeWithGroq` returns the empty
string instead of failing with an empty-response provider error. -/
theorem c2_counterexample :
    executeWithGroq { status := 200, bodyText := "{}", bodyJson := some {} } =
      .ok "" := rfl

/-- Claim C2 (amended): on every non-success HTTP response the client
fails with an error whose message carries the HTTP status and raw body
(and it performs no retry - the model consumes exactly one response);
but when a success response's JSON body contains no usable text field
the client returns the empty string rather than failing. -/
theorem c2_amended_provider_error_behavior (r : HttpResponse) :
    (¬ (200 ≤ r.status ∧ r.status ≤ 299) →
      executeWithGroq r =
        .error ("Groq proxy error: " ++ toString r.status ++ " - " ++ r.bodyText)) ∧
    ((200 ≤ r.status ∧ r.status ≤ 299) → r.bodyJson = some {} →
      executeWithGroq r = .ok "") := by
  constructor
  · intro h
    unfold executeWithGroq
    rw [if_neg h]
  · intro h hj
    unfold executeWithGroq
    rw [if_pos h, hj]
    rfl

/-- Witness for the amended claim C2 at status 500 and at a success
response with an empty JSON body. -/
theorem c2_amended_witness :
    executeWithGroq { status := 500, bodyText := "boom" } =
      .error ("Groq proxy error: " ++ toString 500 ++ " - " ++ "boom") ∧
    executeWithGroq { status := 200, bodyText := "{}", bodyJson := some {} } = .ok "" :=
  ⟨(c2_amended_provider_error_behavior { status := 500, bodyText := "boom" }).1
      (by decide),
   (c2_amended_provider_error_behavior
      { status := 200, bodyText := "{}", bodyJson := some {} }).2 (by decide) rfl⟩

/-- Claim C3, counterexample: two calls of `detectLanguage` on the
identical input string can return different pairs, because the result
depends on the outcome of the AI-detection network call made first. -/
theorem c3_counterexample :
    detectLanguage "def f(x):" {} (.ok "javascript") ≠
      detectLanguage "def f(x):" {} (.ok "python") := by
  decide

/-- Claim C3 (amended): `detectLanguage` is a deterministic function of
the input text, the configuration, and the (post-processed) outcome of
the AI detection call; in particular two calls on the identical string
whose AI outcomes normalize to the same answer - for example any two
failures - return the identical result. -/
theorem c3_amended_deterministic_given_ai_outcome (code : String)
    (cfg : CodeAnalysisConfig) (a₁ a₂ : Except String String)
    (h : aiDetectLanguage a₁ = aiDetectLanguage a₂) :
    detectLanguage code cfg a₁ = detectLanguage code cfg a₂ := by
  unfold detectLanguage
  rw [h]

/-- Witness for the amended claim C3: two different AI failures yield
the identical detection result. -/
theorem c3_amended_witness :
    aiDetectLanguage (.error "timeout") = aiDetectLanguage (.error "http 500") ∧
    detectLanguage "def f(x):" {} (.error "timeout") =
      detectLanguage "def f(x):" {} (.error "http 500") :=
  ⟨by decide,
   c3_amended_deterministic_given_ai_outcome "def f(x):" {} _ _ (by decide)⟩

/-- Claim C4, counterexample: on the non-empty input "12345" no pattern
of the weighted rule table matches, yet `detectLanguage` (with the AI
call failing, so the regex path runs) returns language "unknown", not
"text". -/
theorem c4_counterexample :
    jsTrim "12345".data ≠ [] ∧
    (∀ p ∈ detectPatterns, countPattern p "12345".data = 0) ∧
    detectLanguage "12345" {} (.error "ai down") ≠
      { language := "text", confidence := 0 } := by
  refine ⟨by decide, by decide, by decide⟩

/-- Claim C4 (amended): for every non-empty input text in which no
pattern of the weighted detection rule table matches, `detectLanguage`
with the default configuration (and the AI path unavailable) returns
language "unknown" with confidence 0.  The "text" fallback of the
source is returned only for empty input or when the confidence falls
below a positive `minConfidence`, which cannot happen at the default
`minConfidence = 0`. -/
theorem c4_amended_no_match_unknown (code : String) (e : String)
    (h1 : jsTrim code.data ≠ [])
    (h2 : ∀ p ∈ detectPatterns, countPattern p code.data = 0) :
    detectLanguage code {} (.error e) =
      { language := "unknown", confidence := 0 } := by
  have hne : code.data ≠ [] := by
    intro h0
    apply h1
    rw [h0]
    rfl
  have hlen : 1 ≤ code.data.length := by
    cases hd : code.data with
    | nil => exact absurd hd hne
    | cons a t => simp
  unfold detectLanguage
  rw [if_neg (by
    intro hmk
    exact h1 (by simpa using congrArg String.data hmk))]
  rw [if_neg (by
    rintro ⟨-, -, hunk⟩
    exact hunk rfl)]
  have hsc : detectScores code.data = [] := by
    unfold detectScores
    exact foldl_scores_eq detectPatterns [] h2
  have hconf : jsConfidence (bestEntry (detectScores code.data)).2 code.data.length = 0 := by
    rw [hsc]
    unfold bestEntry jsConfidence
    have hz : (20000 * 0 + code.data.length) / (2 * code.data.length) = 0 :=
      Nat.div_eq_of_lt (by omega)
    simpa using hz
  simp only [hconf]
  rw [if_neg (by simp)]
  rw [hsc]
  rfl

/-- Witness for the amended claim C4 at the concrete input "12345". -/
theorem c4_amended_witness :
    detectLanguage "12345" {} (.error "ai down") =
      { language := "unknown", confidence := 0 } :=
  c4_amended_no_match_unknown "12345" "ai down" (by decide) (by decide)

set_option maxRecDepth 8000 in
/-- Claim C5 counterexample: the security-audit fallback depends on the
ambient random draws (Math.random), so two runs on the same inputs can
disagree — the fallback content is not a deterministic function of the
request alone. -/
theorem c5_counterexample :
    generateSecurityAuditFallback ["xss"] "1/1/2026" (fun _ => Rat.divInt 4 5) ≠
      generateSecurityAuditFallback ["xss"] "1/1/2026" (fun _ => Rat.divInt 1 2) := by
  decide

/-- Claim C5 amended: the debug/refactor fallback is a deterministic
function of the issue list (it ignores the source text entirely), and the
security-audit fallback is determined by the vulnerability list together
with the ambient date and the outcomes of the per-vulnerability random
comparisons against 0.7. -/
theorem c5_amended_fallback_determinism (s₁ s₂ : String) (ts vts : List String)
    (d₁ d₂ : String) (r₁ r₂ : Nat → ℚ) (hd : d₁ = d₂)
    (hr : ∀ i, (Rat.divInt 7 10 < r₁ i) ↔ (Rat.divInt 7 10 < r₂ i)) :
    generateDebugRefactorFallback s₁ ts = generateDebugRefactorFallback s₂ ts ∧
    generateSecurityAuditFallback vts d₁ r₁ = generateSecurityAuditFallback vts d₂ r₂ := by
  constructor
  · rfl
  · have hsec : ∀ p : Nat × String,
        securityVulnSection p.2 (r₁ p.1) = securityVulnSection p.2 (r₂ p.1) := by
      intro p
      unfold securityVulnSection
      rw [if_congr (hr p.1) rfl rfl]
    unfold generateSecurityAuditFallback
    rw [hd, List.map_congr_left (fun p _ => hsec p)]

theorem c5_amended_witness :
    generateDebugRefactorFallback "codeA" ["bugs"] =
      generateDebugRefactorFallback "codeB" ["bugs"] ∧
    generateSecurityAuditFallback ["xss"] "1/1/2026" (fun _ => Rat.divInt 9 10) =
      generateSecurityAuditFallback ["xss"] "1/1/2026" (fun _ => Rat.divInt 4 5) := by
  have hr : ∀ i : Nat, (Rat.divInt 7 10 < (fun _ : Nat => Rat.divInt 9 10) i) ↔
      (Rat.divInt 7 10 < (fun _ : Nat => Rat.divInt 4 5) i) := by
    intro i
    show (Rat.divInt 7 10 < Rat.divInt 9 10) ↔ (Rat.divInt 7 10 < Rat.divInt 4 5)
    decide
  exact c5_amended_fallback_determinism "codeA" "codeB" ["bugs"] ["xss"]
    "1/1/2026" "1/1/2026" (fun _ => Rat.divInt 9 10) (fun _ => Rat.divInt 4 5) rfl hr

/-- The markup-likeness condition named by claim C6: the raw source text
contains "className=", or "<div", or "return (", or an angle bracket
immediately followed by a word character. -/
def claimMarkupLike (s : List Char) : Prop :=
  "className=".data <:+: s ∨ "<div".data <:+: s ∨ "return (".data <:+: s ∨
  hasAngleTag s = true

/-- Claim C6: whenever the source text is markup-like in the claim's
sense, `handleExplain` rejects it in the local validation block — the
outcome is the invalid-input error and zero chat requests are issued,
whatever the provider would have answered. -/
theorem c6_markup_blocked_before_network (sourceCode : String)
    (ai : Except String String) (h : claimMarkupLike sourceCode.data) :
    handleExplain sourceCode ai = (.invalidInput, 0) := by
  have step : ∀ pat : List Char, pat ≠ [] →
      (pat.head?.all fun c => !jsWs c) = true →
      (pat.getLast?.all fun c => !jsWs c) = true →
      pat <:+: sourceCode.data →
      pat <:+: jsTrim sourceCode.data ∧ jsTrim sourceCode.data ≠ [] := by
    intro pat hne hh hg hinf
    have hh2 : ∀ c, pat.head? = some c → jsWs c = false := by
      intro c hc
      rw [hc] at hh
      simpa using hh
    have hg2 : ∀ c, pat.getLast? = some c → jsWs c = false := by
      intro c hc
      rw [hc] at hg
      simpa using hg
    have ht := infix_jsTrim_of_edges hne hh2 hg2 hinf
    refine ⟨ht, fun hnil => ?_⟩
    rw [hnil] at ht
    exact hne (List.infix_nil.mp ht)
  rcases h with h | h | h | h
  · obtain ⟨ht, hnz⟩ := step "className=".data (by decide) (by decide) (by decide) h
    have hcn : "className".data <:+: jsTrim sourceCode.data :=
      (List.IsPrefix.isInfix ⟨['='], rfl⟩).trans ht
    have hc : containsSub "className".data (jsTrim sourceCode.data) = true :=
      decide_eq_true hcn
    refine handleExplain_invalid_of_markup sourceCode ai ?_ hnz
    unfold markupPre
    rw [hc]
    simp
  · obtain ⟨ht, hnz⟩ := step "<div".data (by decide) (by decide) (by decide) h
    have hc : containsSub "<div".data (jsTrim sourceCode.data) = true :=
      decide_eq_true ht
    refine handleExplain_invalid_of_markup sourceCode ai ?_ hnz
    unfold markupPre
    rw [hc]
    simp
  · obtain ⟨ht, hnz⟩ := step "return (".data (by decide) (by decide) (by decide) h
    have hc : containsSub "return (".data (jsTrim sourceCode.data) = true :=
      decide_eq_true ht
    refine handleExplain_invalid_of_markup sourceCode ai ?_ hnz
    unfold markupPre
    rw [hc]
    simp
  · obtain ⟨c, hw, hinf⟩ := (hasAngleTag_iff sourceCode.data).mp h
    obtain ⟨ht, hnz⟩ := step ['<', c] (by simp)
      (by show (!jsWs '<') = true; decide)
      (by show (!jsWs c) = true; rw [wordChar_not_ws hw]; rfl)
      hinf
    have hc : hasAngleTag (jsTrim sourceCode.data) = true :=
      (hasAngleTag_iff (jsTrim sourceCode.data)).mpr ⟨c, hw, ht⟩
    refine handleExplain_invalid_of_markup sourceCode ai ?_ hnz
    unfold markupPre
    rw [hc]
    simp

theorem c6_witness :
    claimMarkupLike "<div className=\"x\">".data ∧
    handleExplain "<div className=\"x\">" (.ok "anything") = (.invalidInput, 0) :=
  ⟨Or.inl (by decide),
   c6_markup_blocked_before_network "<div className=\"x\">" (.ok "anything")
     (Or.inl (by decide))⟩

set_option maxRecDepth 16000 in
/-- Claim C7 (actual behaviour): the fallback test synthesizer always
embeds the identifier "foo" in its output, but only the four languages
with an entry in the template record (python, javascript, java,
typescript) receive a framework-specific skeleton; every other language
of the framework table — ruby and csharp among them — receives the
generic JavaScript-style comment placeholder, which is not a
syntactically well-formed skeleton for that language's framework. -/
theorem c7_generic_fallback_eval :
    (∀ p ∈ frameworkMap, containsSub "foo".data
        (generateFallbackTests "foo" p.1 p.2.framework "standard").data = true) ∧
    generateFallbackTests "foo" "ruby" "RSpec" "standard" =
      "// Tests for foo\n// Using RSpec\n\n// Add real tests" ∧
    generateFallbackTests "foo" "csharp" "xUnit" "standard" =
      "// Tests for foo\n// Using xUnit\n\n// Add real tests" := by
  refine ⟨by decide, rfl, rfl⟩

/-- Claim C8 counterexample: in the success branch of
`callCodeOptimization` the analysis report is a hardcoded local notice —
its content comes from neither a completed provider call nor the
fallback synthesizer — yet `isPlaceholder` is false, so the claimed
two-way dichotomy between provider content and fallback content does not
describe this result. -/
theorem c8_counterexample :
    (callCodeOptimization "fb" "fa" (.ok "code")).2.2 ≠ ContentOrigin.provider ∧
    (callCodeOptimization "fb" "fa" (.ok "code")).2.2 ≠ ContentOrigin.fallback ∧
    (callCodeOptimization "fb" "fa" (.ok "code")).2.1.isPlaceholder = false := by
  decide

/-- Claim C8 amended: for every outcome of the dispatched provider call,
`isPlaceholder` is true exactly when the result's content came from the
catch branch that substitutes the caller-supplied fallback content; the
analysis report of `callCodeOptimization`'s success branch instead
carries a hardcoded local notice with `isPlaceholder` false. -/
theorem c8_amended_placeholder_origin (fb fa fc : String)
    (groq : Except String String) :
    ((callAIFunction fc groq).1.isPlaceholder = true ↔
      (callAIFunction fc groq).2 = ContentOrigin.fallback) ∧
    ((callCodeOptimization fb fa groq).1.1.isPlaceholder = true ↔
      (callCodeOptimization fb fa groq).1.2 = ContentOrigin.fallback) ∧
    ((callCodeOptimization fb fa groq).2.1.isPlaceholder = true ↔
      (callCodeOptimization fb fa groq).2.2 = ContentOrigin.fallback) := by
  cases groq <;> simp [callAIFunction, callCodeOptimization]

/-- Claim C9: whenever the normalized model response contains no "//"
substring or is shorter than 60% of the source code, `handleExplain`
discards the model output and returns the keyword-comment substitution
of the source — every line with nonempty trim is preceded by a line
"// <comment>" derived from the keyword table (default "Do something";
a line whose first token filters and lowercases to "constructor"
instead receives the stringified Object constructor inherited through
the JS prototype chain), blank lines pass through — as an ordinary
success (the success outcome
carries only the text: no placeholder flag exists on this path), after
exactly one provider request. -/
theorem c9_silent_keyword_fallback (sourceCode raw : String)
    (h1 : validateRequired sourceCode = true)
    (h2 : markupPre (jsTrim sourceCode.data) = false)
    (h3 : containsSub "ERROR: JSX".data (normalizeExplain raw.data) = false)
    (h4 : containsSub "//".data (normalizeExplain raw.data) = false ∨
      10 * (normalizeExplain raw.data).length < 6 * sourceCode.data.length) :
    handleExplain sourceCode (.ok raw) =
      (.success (String.mk (keywordCommentLines sourceCode.data)), 1) ∧
    splitNL (keywordCommentLines sourceCode.data) =
      (splitNL sourceCode.data).flatMap (fun line =>
        if jsTrim line = [] then [line]
        else [("// ".data ++ (commentFor line).data), line]) := by
  refine ⟨?_, keywordCommentLines_lines sourceCode.data⟩
  unfold handleExplain
  rw [if_neg (by rw [h1]; simp), if_neg (by rw [h2]; simp)]
  show (if containsSub "ERROR: JSX".data (normalizeExplain raw.data) = true then
      ((ExplainOutcome.jsxDetected, 1) : ExplainOutcome × Nat)
    else if containsSub "//".data (normalizeExplain raw.data) = false ∨
        10 * (normalizeExplain raw.data).length < 6 * sourceCode.data.length then
      (.success (String.mk (keywordCommentLines sourceCode.data)), 1)
    else (.success (String.mk (normalizeExplain raw.data)), 1)) = _
  rw [h3]
  simp only [Bool.false_eq_true, if_false]
  rw [if_pos h4]

theorem c9_witness :
    handleExplain "let x = 1" (.ok "no comments here") =
      (.success (String.mk (keywordCommentLines "let x = 1".data)), 1) := by
  have h3 : containsSub "ERROR: JSX".data
      (normalizeExplain "no comments here".data) = false := by
    simp +decide [normalizeExplain, stripFenceLang, stripTicks3, collapseNewlines,
      collapseBlankRuns, jsTrim, containsSub]
  have h4 : containsSub "//".data (normalizeExplain "no comments here".data) = false := by
    simp +decide [normalizeExplain, stripFenceLang, stripTicks3, collapseNewlines,
      collapseBlankRuns, jsTrim, containsSub]
  exact (c9_silent_keyword_fallback "let x = 1" "no comments here" (by decide) (by decide)
    h3 (Or.inl h4)).1

/-- Claim C10: every output of `cleanCodeResponse` is free of backtick
characters and ends with exactly one trailing newline; consequently any
code string returned by `generateCode` or `generateTests` on their
success paths contains no backtick (template literals in the generated
code cannot survive the cleaning). -/
theorem c10_clean_code_no_backtick :
    (∀ (code : List Char) (language : String),
      noBacktick (cleanCodeResponse code language) ∧
      endsWithOneNewline (cleanCodeResponse code language)) ∧
    (∀ (language : String) (groq : Except String String) (s : String),
      generateCode language groq = .ok s → noBacktick s.data) ∧
    (∀ (language : String) (groq : Except String String) (s : String),
      generateTests language groq = .ok s → noBacktick s.data) := by
  refine ⟨fun code language => cleanCodeResponse_spec code language, ?_, ?_⟩
  · intro language groq s h
    cases groq with
    | ok result =>
      unfold generateCode at h
      rw [Except.ok.injEq] at h
      rw [← h]
      exact (cleanCodeResponse_spec result.data language).1
    | error e => exact absurd h (by unfold generateCode; exact fun hf => Except.noConfusion hf)
  · intro language groq s h
    cases groq with
    | ok result =>
      unfold generateTests at h
      rw [Except.ok.injEq] at h
      rw [← h]
      exact (cleanCodeResponse_spec result.data language).1
    | error e => exact absurd h (by unfold generateTests; exact fun hf => Except.noConfusion hf)

theorem c10_witness :
    generateCode "javascript" (.ok "abc") = .ok "abc\n" ∧ noBacktick "abc\n".data :=
  ⟨rfl, c10_clean_code_no_backtick.2.1 "javascript" (.ok "abc") "abc\n" rfl⟩
